import Mathlib

/-!
# Verification of the JBIG2 standard Huffman table component

Shallow embedding of the `huffman` package found in
`model/optimize/compress_streams.go` (second embedded unit):
`StandardTable`, `InitTree`, `GetStandardTable`, `newStandardTable`,
the 15 built-in table definitions `tables`, and the lazily populated
cache `standardTables`.

The node/tree machinery (`Code`, `NewCode`, `preprocessCodes`,
`InternalNode.append`, node `Decode`) is part of the repository but its
source is not available here; those definitions are modelled from the
specification text (canonical prefix assignment sorted by ascending
prefix length with declaration order preserved, breadth-first binary
prefixes, bit-by-bit tree walk, OOB sentinel, 32-bit low/high escape
ranges, `InvalidCode` on exhaustion mid-walk). Each such definition is
marked `Modelled from the spec:` in its doc comment. Everything is
executable so that concrete tables and bit streams evaluate by `decide`.
-/

namespace JBIG2Huffman

/-- Modelled from the spec: a single Huffman table entry
`(prefixLength, rangeLength, rangeLow, isLowerRange)`; the `Code` type
itself is outside the provided sources, but its four components are fixed
by the `NewCode` call in `newStandardTable`. -/
structure Code where
  prefixLength : Int
  rangeLength : Int
  rangeLow : Int
  isLowerRange : Bool
deriving DecidableEq, Repr

/-- `NewCode` constructor, as called by `newStandardTable`. -/
def NewCode (prefixLength rangeLength rangeLow : Int) (isLowerRange : Bool) : Code :=
  ⟨prefixLength, rangeLength, rangeLow, isLowerRange⟩

/-- Modelled from the spec: the binary prefix tree built by `InitTree`
(`leaf` holds a `Code`; `node` holds the zero/one children; `empty`
stands for an absent child slot of an internal node). -/
inductive HTree where
  | empty : HTree
  | leaf (c : Code) : HTree
  | node (zero one : HTree) : HTree
deriving DecidableEq, Repr

/-- Stable insertion of a code into a list sorted by ascending
`prefixLength`: the new code goes after every code of smaller or equal
prefix length, preserving declaration order among equals. -/
def insCode (c : Code) : List Code → List Code
  | [] => [c]
  | d :: ds => if d.prefixLength ≤ c.prefixLength then d :: insCode c ds else c :: d :: ds

/-- Modelled from the spec: the sorting step of `preprocessCodes` — sort
codes by `(prefixLength ascending, declaration order)` (stable insertion
sort). -/
def sortCodes (cs : List Code) : List Code :=
  cs.foldl (fun acc c => insCode c acc) []

/-- Canonical breadth-first assignment of binary prefix values to an
already sorted code list: the running code value is left-shifted by the
prefix-length increase at each step, so shorter prefixes stay available
for longer codes (JBIG2 Annex B canonical assignment). Returns each code
paired with its assigned prefix value. -/
def assignLoop : List Code → Nat → Nat → List (Code × Nat)
  | [], _, _ => []
  | c :: rest, curLen, curCode =>
    let L := c.prefixLength.toNat
    let v := curCode <<< (L - curLen)
    (c, v) :: assignLoop rest L (v + 1)

/-- Modelled from the spec: `preprocessCodes` — sort by
`(prefixLength ascending, declaration order)` and assign binary prefixes
breadth-first canonically. -/
def preprocessCodes (cs : List Code) : List (Code × Nat) :=
  assignLoop (sortCodes cs) 0 0

/-- The prefix value `v` of bit-length `L` spelled as a list of bits,
most significant first. -/
def pathBits (L v : Nat) : List Bool :=
  (List.range L).map (fun i => Nat.testBit v (L - 1 - i))

/-- Modelled from the spec: `InternalNode.append` — descend the assigned
prefix bit by bit, creating internal nodes as needed, and place the leaf
at depth `prefixLength`; fails when the slot is already taken (a code is
a prefix of another). -/
def insertPath : HTree → List Bool → Code → Except String HTree
  | .empty, [], c => .ok (.leaf c)
  | .empty, b :: bs, c =>
    match insertPath .empty bs c with
    | .error e => .error e
    | .ok child => .ok (if b then .node .empty child else .node child .empty)
  | .node z o, b :: bs, c =>
    if b then
      match insertPath o bs c with
      | .error e => .error e
      | .ok o2 => .ok (.node z o2)
    else
      match insertPath z bs c with
      | .error e => .error e
      | .ok z2 => .ok (.node z2 o)
  | .node _ _, [], _ => .error "node slot occupied by an internal node"
  | .leaf _, _, _ => .error "node slot occupied by a leaf"

/-- Append every assigned code to the root (which starts as the empty
internal node, as in `newInternalNode(0)`). -/
def appendAll (assigned : List (Code × Nat)) : Except String HTree :=
  assigned.foldlM
    (fun t cv => insertPath t (pathBits cv.1.prefixLength.toNat cv.2) cv.1)
    (HTree.node .empty .empty)

/-- `StandardTable.InitTree`: `preprocessCodes` then append each code to
the root node (the append order over the modelled tree is the sorted,
canonically assigned order). -/
def InitTree (codeTable : List Code) : Except String HTree :=
  appendAll (preprocessCodes codeTable)

/-- The same tree construction with the sorting step of
`preprocessCodes` removed: codes are assigned prefixes in declaration
order. Used to show the sort is load-bearing (table B3). -/
def InitTreeUnsorted (codeTable : List Code) : Except String HTree :=
  appendAll (assignLoop codeTable 0 0)

/-- Decode error taxonomy of the spec relevant to the Huffman decoder. -/
inductive DErr where
  | invalidCode
  | unexpectedEndOfData
deriving DecidableEq, Repr

/-- Value of a bit list read most-significant-bit first. -/
def natOfBits (bits : List Bool) : Nat :=
  bits.foldl (fun a b => 2 * a + (if b then 1 else 0)) 0

/-- The low `w` bits of `v`, most significant first. -/
def bitsOfNat (w v : Nat) : List Bool :=
  (List.range w).map (fun i => Nat.testBit v (w - 1 - i))

/-- Modelled from the spec: read `n` raw bits from the stream, failing
with `UnexpectedEndOfData` when fewer remain. -/
def readRawBits (bits : List Bool) (n : Nat) : Except DErr (Int × List Bool) :=
  if n ≤ bits.length then .ok ((natOfBits (bits.take n) : Int), bits.drop n)
  else .error .unexpectedEndOfData

/-- Modelled from the spec: interpretation of a leaf `Code` —
`rangeLength = -1` is the OOB sentinel (value absent, not an error);
`rangeLength = 32` reads a raw 32-bit offset added to `rangeLow`
(subtracted when `isLowerRange`); otherwise plain range
`rangeLow + rawBits(rangeLength)`. -/
def decodeLeaf (c : Code) (bits : List Bool) : Except DErr (Option Int × List Bool) :=
  if c.rangeLength = -1 then .ok (none, bits)
  else if c.rangeLength = 32 then
    match readRawBits bits 32 with
    | .error e => .error e
    | .ok (v, rest) =>
      .ok (some (if c.isLowerRange then c.rangeLow - v else c.rangeLow + v), rest)
  else
    match readRawBits bits c.rangeLength.toNat with
    | .error e => .error e
    | .ok (v, rest) => .ok (some (c.rangeLow + v), rest)

/-- Modelled from the spec: the node `Decode` — walk the tree bit by
bit, failing with `InvalidCode` when the bits are exhausted mid-walk (or
no child matches); at a leaf, interpret the `Code`. Returns the decoded
value (`none` = OOB) and the unconsumed bits. -/
def decodeTree : HTree → List Bool → Except DErr (Option Int × List Bool)
  | .leaf c, bits => decodeLeaf c bits
  | .node _ _, [] => .error .invalidCode
  | .node z o, b :: bs => if b then decodeTree o bs else decodeTree z bs
  | .empty, _ => .error .invalidCode

/-- `StandardTable.Decode` delegates to the root node's decode. -/
def Decode (rootNode : HTree) (bits : List Bool) : Except DErr (Option Int × List Bool) :=
  decodeTree rootNode bits

/-- The 15 built-in standard table definitions B1–B15, transcribed from
the `tables` variable. -/
def tables : List (List (List Int)) := [
  -- B1
  [[1, 4, 0],
   [2, 8, 16],
   [3, 16, 272],
   [3, 32, 65808]],
  -- B2
  [[1, 0, 0],
   [2, 0, 1],
   [3, 0, 2],
   [4, 3, 3],
   [5, 6, 11],
   [6, 32, 75],
   [6, -1, 0]],
  -- B3
  [[8, 8, -256],
   [1, 0, 0],
   [2, 0, 1],
   [3, 0, 2],
   [4, 3, 3],
   [5, 6, 11],
   [8, 32, -257, 999],
   [7, 32, 75],
   [6, -1, 0]],
  -- B4
  [[1, 0, 1],
   [2, 0, 2],
   [3, 0, 3],
   [4, 3, 4],
   [5, 6, 12],
   [5, 32, 76]],
  -- B5
  [[7, 8, -255],
   [1, 0, 1],
   [2, 0, 2],
   [3, 0, 3],
   [4, 3, 4],
   [5, 6, 12],
   [7, 32, -256, 999],
   [6, 32, 76]],
  -- B6
  [[5, 10, -2048],
   [4, 9, -1024],
   [4, 8, -512],
   [4, 7, -256],
   [5, 6, -128],
   [5, 5, -64],
   [4, 5, -32],
   [2, 7, 0],
   [3, 7, 128],
   [3, 8, 256],
   [4, 9, 512],
   [4, 10, 1024],
   [6, 32, -2049, 999],
   [6, 32, 2048]],
  -- B7
  [[4, 9, -1024],
   [3, 8, -512],
   [4, 7, -256],
   [5, 6, -128],
   [5, 5, -64],
   [4, 5, -32],
   [4, 5, 0],
   [5, 5, 32],
   [5, 6, 64],
   [4, 7, 128],
   [3, 8, 256],
   [3, 9, 512],
   [3, 10, 1024],
   [5, 32, -1025, 999],
   [5, 32, 2048]],
  -- B8
  [[8, 3, -15],
   [9, 1, -7],
   [8, 1, -5],
   [9, 0, -3],
   [7, 0, -2],
   [4, 0, -1],
   [2, 1, 0],
   [5, 0, 2],
   [6, 0, 3],
   [3, 4, 4],
   [6, 1, 20],
   [4, 4, 22],
   [4, 5, 38],
   [5, 6, 70],
   [5, 7, 134],
   [6, 7, 262],
   [7, 8, 390],
   [6, 10, 646],
   [9, 32, -16, 999],
   [9, 32, 1670],
   [2, -1, 0]],
  -- B9
  [[8, 4, -31],
   [9, 2, -15],
   [8, 2, -11],
   [9, 1, -7],
   [7, 1, -5],
   [4, 1, -3],
   [3, 1, -1],
   [3, 1, 1],
   [5, 1, 3],
   [6, 1, 5],
   [3, 5, 7],
   [6, 2, 39],
   [4, 5, 43],
   [4, 6, 75],
   [5, 7, 139],
   [5, 8, 267],
   [6, 8, 523],
   [7, 9, 779],
   [6, 11, 1291],
   [9, 32, -32, 999],
   [9, 32, 3339],
   [2, -1, 0]],
  -- B10
  [[7, 4, -21],
   [8, 0, -5],
   [7, 0, -4],
   [5, 0, -3],
   [2, 2, -2],
   [5, 0, 2],
   [6, 0, 3],
   [7, 0, 4],
   [8, 0, 5],
   [2, 6, 6],
   [5, 5, 70],
   [6, 5, 102],
   [6, 6, 134],
   [6, 7, 198],
   [6, 8, 326],
   [6, 9, 582],
   [6, 10, 1094],
   [7, 11, 2118],
   [8, 32, -22, 999],
   [8, 32, 4166],
   [2, -1, 0]],
  -- B11
  [[1, 0, 1],
   [2, 1, 2],
   [4, 0, 4],
   [4, 1, 5],
   [5, 1, 7],
   [5, 2, 9],
   [6, 2, 13],
   [7, 2, 17],
   [7, 3, 21],
   [7, 4, 29],
   [7, 5, 45],
   [7, 6, 77],
   [7, 32, 141]],
  -- B12
  [[1, 0, 1],
   [2, 0, 2],
   [3, 1, 3],
   [5, 0, 5],
   [5, 1, 6],
   [6, 1, 8],
   [7, 0, 10],
   [7, 1, 11],
   [7, 2, 13],
   [7, 3, 17],
   [7, 4, 25],
   [8, 5, 41],
   [8, 32, 73]],
  -- B13
  [[1, 0, 1],
   [3, 0, 2],
   [4, 0, 3],
   [5, 0, 4],
   [4, 1, 5],
   [3, 3, 7],
   [6, 1, 15],
   [6, 2, 17],
   [6, 3, 21],
   [6, 4, 29],
   [6, 5, 45],
   [7, 6, 77],
   [7, 32, 141]],
  -- B14
  [[3, 0, -2],
   [3, 0, -1],
   [1, 0, 0],
   [3, 0, 1],
   [3, 0, 2]],
  -- B15
  [[7, 4, -24],
   [6, 2, -8],
   [5, 1, -4],
   [4, 0, -2],
   [3, 0, -1],
   [1, 0, 0],
   [3, 0, 1],
   [4, 0, 2],
   [5, 1, 3],
   [6, 2, 5],
   [7, 4, 9],
   [7, 32, -25, 999],
   [7, 32, 25]]]

/-- One row of a table definition turned into a `Code`, exactly as the
loop body of `newStandardTable` does: the first three elements are
`prefixLength`, `rangeLength`, `rangeLow`, and `isLowerRange` is set
exactly when the row has more than three elements. -/
def rowCode (row : List Int) : Code :=
  NewCode (row.getD 0 0) (row.getD 1 0) (row.getD 2 0) (decide (3 < row.length))

/-- The code table `newStandardTable` builds from a table definition. -/
def codeTableOf (table : List (List Int)) : List Code :=
  table.map rowCode

/-- `newStandardTable`: build the code table from the rows, then
`InitTree` on a fresh root. -/
def newStandardTable (table : List (List Int)) : Except String HTree :=
  InitTree (codeTableOf table)

/-- The `standardTables` cache in its initial (empty) state: one `none`
slot per table definition. -/
def initialCache : List (Option HTree) :=
  List.replicate tables.length none

/-- `GetStandardTable`, with the process-wide `standardTables` cache
made an explicit argument and result: out-of-range numbers fail with
"Index out of range"; a cached table is returned as is; otherwise the
table is built by `newStandardTable` and stored in the cache. -/
def GetStandardTable (number : Int) (standardTables : List (Option HTree)) :
    Except String HTree × List (Option HTree) :=
  if number ≤ 0 ∨ (tables.length : Int) < number then
    (.error "Index out of range", standardTables)
  else
    let idx := (number - 1).toNat
    match standardTables.getD idx none with
    | some t => (.ok t, standardTables)
    | none =>
      match newStandardTable (tables.getD idx []) with
      | .error e => (.error e, standardTables)
      | .ok t => (.ok t, standardTables.set idx (some t))

/-- The tree `GetStandardTable` would build for index `i` (0-based);
`empty` only as an unreachable fallback (construction of each of the 15
tables is proved to succeed). -/
def stdTree (i : Nat) : HTree :=
  match newStandardTable (tables.getD i []) with
  | .ok t => t
  | .error _ => .empty

/-- The assigned codewords `(length, value)` of a table definition. -/
def codewords (table : List (List Int)) : List (Nat × Nat) :=
  (preprocessCodes (codeTableOf table)).map (fun cv => (cv.1.prefixLength.toNat, cv.2))

/-- Codeword `a` is a proper initial segment of codeword `b`. -/
def isProperInitialSeg (a b : Nat × Nat) : Bool :=
  decide (a.1 < b.1) && (Nat.shiftRight b.2 (b.1 - a.1) == a.2)

/-- Two codewords are distinct and neither is a proper initial segment
of the other. -/
def cwCompatible (a b : Nat × Nat) : Bool :=
  !(a == b) && !(isProperInitialSeg a b) && !(isProperInitialSeg b a)

/-- A list of codewords is prefix-free: pairwise distinct and no one a
proper initial segment of another. -/
def prefixFreeList : List (Nat × Nat) → Bool
  | [] => true
  | a :: rest => rest.all (cwCompatible a) && prefixFreeList rest

/-- The code list has nondecreasing prefix lengths. -/
def sortedNondec : List Code → Bool
  | [] => true
  | [_] => true
  | a :: b :: rest => decide (a.prefixLength ≤ b.prefixLength) && sortedNondec (b :: rest)

/-- `s` is the stable sort of `orig` by ascending prefix length:
sorted, same multiset, and for each prefix length the codes of that
length appear in `s` exactly in their declaration order in `orig`. -/
def stableSortOk (orig s : List Code) : Bool :=
  sortedNondec s && (s.length == orig.length) &&
  (s.map (fun c => c.prefixLength)).all
    (fun L => (orig.map (fun c => c.prefixLength)).contains L) &&
  (orig.map (fun c => c.prefixLength)).all
    (fun L => (s.filter (fun c => c.prefixLength == L))
      == (orig.filter (fun c => c.prefixLength == L)))

/-- The canonical breadth-first recurrence over an assigned code list:
from `(length L, value v)` the next code of length `M ≥ L` receives
value `(v + 1) <<< (M - L)`. -/
def canonicalChain : Nat → Nat → List (Code × Nat) → Bool
  | _, _, [] => true
  | L, v, (c, w) :: rest =>
    decide (L ≤ c.prefixLength.toNat) && (w == (v + 1) <<< (c.prefixLength.toNat - L))
      && canonicalChain c.prefixLength.toNat w rest

/-- An assigned code list is canonical: first value `0`, then the
canonical recurrence, with nondecreasing lengths. -/
def canonicalOk : List (Code × Nat) → Bool
  | [] => true
  | (c, v) :: rest => (v == 0) && canonicalChain c.prefixLength.toNat v rest

/-- The walk of `bits` through the tree runs out of bits at an internal
node (mid-walk exhaustion). -/
def walkExhausted : HTree → List Bool → Bool
  | .node _ _, [] => true
  | .node z o, b :: bs => if b then walkExhausted o bs else walkExhausted z bs
  | _, _ => false

/-- The walk of `bits` through the tree reaches a leaf. -/
def walkReachesLeaf : HTree → List Bool → Bool
  | .leaf _, _ => true
  | .node z o, b :: bs => if b then walkReachesLeaf o bs else walkReachesLeaf z bs
  | _, _ => false

end JBIG2Huffman

deriving instance DecidableEq for Except

namespace JBIG2Huffman

theorem readRawBits_ne_invalidCode (bits : List Bool) (n : Nat) :
    readRawBits bits n ≠ Except.error DErr.invalidCode := by
  unfold readRawBits
  split_ifs <;> simp

theorem decodeLeaf_ne_invalidCode (c : Code) (bits : List Bool) :
    decodeLeaf c bits ≠ Except.error DErr.invalidCode := by
  unfold decodeLeaf
  by_cases h1 : c.rangeLength = -1
  · simp [h1]
  · rw [if_neg h1]
    by_cases h2 : c.rangeLength = 32
    · rw [if_pos h2]
      have h := readRawBits_ne_invalidCode bits 32
      cases hr : readRawBits bits 32 with
      | error e =>
        rw [hr] at h
        simp only [hr]
        cases e
        · exact absurd rfl h
        · simp
      | ok p =>
        obtain ⟨v, rest⟩ := p
        simp [hr]
    · rw [if_neg h2]
      have h := readRawBits_ne_invalidCode bits c.rangeLength.toNat
      cases hr : readRawBits bits c.rangeLength.toNat with
      | error e =>
        rw [hr] at h
        simp only [hr]
        cases e
        · exact absurd rfl h
        · simp
      | ok p =>
        obtain ⟨v, rest⟩ := p
        simp [hr]

/-- C1: `InitTree` processes the codes of every code table (in
particular each of the 15 built-in definitions) sorted by `prefixLength`
ascending with declaration order preserved among equal prefix lengths,
assigns binary prefix values breadth-first canonically (first value 0,
each next value `(previous + 1)` shifted left by the length increase),
and construction succeeds on all 15 tables; it is a pure function of the
code table (determinism is definitional: `InitTree` is exactly the
append of the sorted, canonically assigned codes). Removing the sort
breaks table B3, whose `prefixLength`-8 row is declared first: the
unsorted construction fails, so the sort is load-bearing. -/
theorem initTree_sorted_canonical :
    (tables.all (fun t => stableSortOk (codeTableOf t) (sortCodes (codeTableOf t))) = true) ∧
    (tables.all (fun t => canonicalOk (preprocessCodes (codeTableOf t))) = true) ∧
    (tables.all (fun t => Except.isOk (newStandardTable t)) = true) ∧
    (∀ cs : List Code, InitTree cs = appendAll (assignLoop (sortCodes cs) 0 0)) ∧
    (Except.isOk (InitTreeUnsorted (codeTableOf (tables.getD 2 []))) = false) :=
  ⟨by decide, by decide, by decide, fun _ => rfl, by decide⟩

/-- C2: with standard table B1, the 1-bit prefix `0` leads to the code
`(prefixLength 1, rangeLength 4, rangeLow 0)`, so `Decode` returns
`0 + rawBits(4)` — exactly the values of the range `[0, 16)` — for every
4-bit raw suffix: every suffix decodes to its 4-bit value, every value
below 16 is reached, and 4-bit values never leave `[0, 16)`. -/
theorem b1_zero_decodes_range_0_16 :
    (∀ b1 b2 b3 b4 : Bool,
        Decode (stdTree 0) (false :: [b1, b2, b3, b4])
          = .ok (some ((natOfBits [b1, b2, b3, b4] : Nat) : Int), [])) ∧
    (∀ v : Fin 16,
        Decode (stdTree 0) (false :: bitsOfNat 4 (v : Nat)) = .ok (some ((v : Nat) : Int), [])) ∧
    (∀ b1 b2 b3 b4 : Bool, natOfBits [b1, b2, b3, b4] < 16) ∧
    (codeTableOf (tables.getD 0 [])).getD 0 (NewCode 0 0 0 false) = NewCode 1 4 0 false :=
  ⟨by decide, by decide, by decide, by decide⟩

/-- C3: with standard table B2, the trailing all-ones prefix of length 6
(assigned to the row `{6, -1, 0}`, whose `rangeLength` is `-1`) decodes
to the out-of-band "value absent" outcome: the result is a successful
decode carrying no value, never an error. -/
theorem b2_all_ones_decodes_OOB :
    Decode (stdTree 1) [true, true, true, true, true, true] = .ok (none, []) ∧
    (rowCode ((tables.getD 1 []).getD 6 [])).rangeLength = -1 :=
  ⟨by decide, by decide⟩

/-- C4: `newStandardTable` marks a code `isLowerRange` exactly when its
definition row has a fourth element; decoding a leaf whose `rangeLength`
is 32 reads a raw 32-bit offset and adds it to `rangeLow`, but subtracts
it when `isLowerRange` is set — concretely, B3's low-escape row
`{8, 32, -257, 999}` (prefix `11111111`) with raw offset 5 decodes to
`-257 - 5 = -262`. -/
theorem isLowerRange_fourth_element_escape32 :
    (∀ row : List Int, (rowCode row).isLowerRange = decide (3 < row.length)) ∧
    (∀ (c : Code) (bits : List Bool), c.rangeLength = 32 → 32 ≤ bits.length →
      decodeLeaf c bits
        = .ok (some (if c.isLowerRange then c.rangeLow - (natOfBits (bits.take 32) : Int)
            else c.rangeLow + (natOfBits (bits.take 32) : Int)), bits.drop 32)) ∧
    Decode (stdTree 2) (List.replicate 8 true ++ bitsOfNat 32 5) = .ok (some (-262), []) := by
  refine ⟨fun _ => rfl, ?_, by decide⟩
  intro c bits h32 hlen
  simp [decodeLeaf, readRawBits, h32, hlen]

theorem isLowerRange_fourth_element_escape32_witness :
    decodeLeaf (rowCode [8, 32, -257, 999]) (bitsOfNat 32 5) = .ok (some (-262), []) :=
  (isLowerRange_fourth_element_escape32.2.1 (rowCode [8, 32, -257, 999]) (bitsOfNat 32 5)
      (by decide) (by decide)).trans (by decide)

/-- C5: for each of the 15 standard tables, the codewords assigned by
`InitTree`'s preprocessing are prefix-free — pairwise distinct and no
assigned codeword a proper initial segment of another — so any input bit
sequence can reach at most one leaf of the tree. -/
theorem standard_tables_prefixFree :
    tables.all (fun t => prefixFreeList (codewords t)) = true := by decide

/-- C6: for every number in 1..15, `GetStandardTable` builds the table
on first use (succeeding, and yielding exactly `newStandardTable`'s
result, so rebuilding from the same definition yields a structurally
identical tree), and a second call on the resulting cache returns the
identical table with the cache unchanged — no rebuild. -/
theorem getStandardTable_lazy_cache :
    ∀ n : Fin 15,
      (GetStandardTable ((n : Nat) + 1 : Int) initialCache).1
          = newStandardTable (tables.getD (n : Nat) []) ∧
      Except.isOk (GetStandardTable ((n : Nat) + 1 : Int) initialCache).1 = true ∧
      GetStandardTable ((n : Nat) + 1 : Int)
          (GetStandardTable ((n : Nat) + 1 : Int) initialCache).2
        = ((GetStandardTable ((n : Nat) + 1 : Int) initialCache).1,
           (GetStandardTable ((n : Nat) + 1 : Int) initialCache).2) := by decide

/-- C7: `GetStandardTable` succeeds (returns a table) for every number
in 1..15 starting from the empty cache, and for every number ≤ 0 or
> 15 it returns the "Index out of range" error whatever the cache
state; by the `Except` result type every call yields exactly one of a
table or an error, never neither. -/
theorem getStandardTable_range_check :
    (∀ n : Fin 15,
        Except.isOk (GetStandardTable ((n : Nat) + 1 : Int) initialCache).1 = true) ∧
    (∀ m : Int, m ≤ 0 ∨ 15 < m → ∀ cache,
        (GetStandardTable m cache).1 = Except.error "Index out of range") := by
  constructor
  · decide
  · intro m h cache
    have hc : m ≤ 0 ∨ (tables.length : Int) < m := by
      have h15 : (tables.length : Int) = 15 := by rfl
      rw [h15]
      exact h
    unfold GetStandardTable
    rw [if_pos hc]

theorem getStandardTable_range_check_witness :
    (GetStandardTable 16 initialCache).1 = Except.error "Index out of range" :=
  getStandardTable_range_check.2 16 (Or.inr (by decide)) initialCache

/-- C8: `Decode` fails with `InvalidCode` whenever the input bit stream
is exhausted at an internal node, mid-walk; whenever the walk reaches a
leaf, no `InvalidCode` error is produced (the leaf interpretation can at
worst run out of raw bits, a different error). -/
theorem decode_invalidCode_mid_walk (t : HTree) (bits : List Bool) :
    (walkExhausted t bits = true → Decode t bits = .error .invalidCode) ∧
    (walkReachesLeaf t bits = true → Decode t bits ≠ .error .invalidCode) := by
  induction t generalizing bits with
  | empty =>
    cases bits <;> simp [walkExhausted, walkReachesLeaf, Decode, decodeTree]
  | leaf c =>
    cases bits <;>
      simp [walkExhausted, walkReachesLeaf, Decode, decodeTree, decodeLeaf_ne_invalidCode]
  | node z o ihz iho =>
    cases bits with
    | nil => simp [walkExhausted, walkReachesLeaf, Decode, decodeTree]
    | cons b bs =>
      cases b
      · simpa [walkExhausted, walkReachesLeaf, Decode, decodeTree] using ihz bs
      · simpa [walkExhausted, walkReachesLeaf, Decode, decodeTree] using iho bs

theorem decode_invalidCode_mid_walk_witness :
    Decode (stdTree 0) [true] = .error .invalidCode ∧
    Decode (stdTree 0) [false] ≠ .error .invalidCode :=
  ⟨(decode_invalidCode_mid_walk (stdTree 0) [true]).1 (by decide),
   (decode_invalidCode_mid_walk (stdTree 0) [false]).2 (by decide)⟩

/-- C10: in every one of the 15 built-in standard table definitions, a
code marked `isLowerRange` (a row with a fourth element) always has
`rangeLength` 32: lower-range marking occurs only on 32-bit low-escape
codes, never on plain ranges or OOB rows. -/
theorem lower_range_rows_are_escape32 :
    tables.all (fun t => (codeTableOf t).all
      (fun c => !c.isLowerRange || (c.rangeLength == 32))) = true := by decide

end JBIG2Huffman
